import Mathlib

/-!
Shallow embedding of the fleetchain repository (src/src/crypto.rs,
src/src/blockchain.rs, src/src/game.rs, src/src/coordinator.rs) and proofs
about it.  Rust machine integers are embedded as `Nat`/`Int`; the `u8`
coordinates are reduced `% 256` exactly where the source treats them as raw
bytes.  SHA-256 is embedded concretely and executably.  Fallible operations
return `Except`/`Option`; the unbounded proof-of-work loop takes explicit
fuel.  File-system I/O and JSON (de)serialization round-trips are modelled as
identities on the in-memory value where noted.
-/

namespace Fleetchain

/-! ## SHA-256 (the `sha2` crate's function, embedded executably)

Words are `Nat` truncated `% 2^32`; a digest is its 32 bytes in emission
order, hex-encoded lowercase exactly as Rust's `hex::encode`. -/

/-- Truncation to a 32-bit word. -/
def w32 (n : Nat) : Nat := n % 4294967296

/-- 32-bit right rotation (input assumed `< 2^32`). -/
def rotr (n x : Nat) : Nat := w32 ((x >>> n) ||| (x <<< (32 - n)))

def bsig0 (x : Nat) : Nat := (rotr 2 x) ^^^ (rotr 13 x) ^^^ (rotr 22 x)
def bsig1 (x : Nat) : Nat := (rotr 6 x) ^^^ (rotr 11 x) ^^^ (rotr 25 x)
def ssig0 (x : Nat) : Nat := (rotr 7 x) ^^^ (rotr 18 x) ^^^ (x >>> 3)
def ssig1 (x : Nat) : Nat := (rotr 17 x) ^^^ (rotr 19 x) ^^^ (x >>> 10)
def ch (x y z : Nat) : Nat := (x &&& y) ^^^ ((x ^^^ 4294967295) &&& z)
def maj (x y z : Nat) : Nat := (x &&& y) ^^^ (x &&& z) ^^^ (y &&& z)

/-- The SHA-256 round constants. -/
def shaK : List Nat :=
  [1116352408, 1899447441, 3049323471, 3921009573, 961987163,
   1508970993, 2453635748, 2870763221, 3624381080, 310598401,
   607225278, 1426881987, 1925078388, 2162078206, 2614888103,
   3248222580, 3835390401, 4022224774, 264347078, 604807628,
   770255983, 1249150122, 1555081692, 1996064986, 2554220882,
   2821834349, 2952996808, 3210313671, 3336571891, 3584528711,
   113926993, 338241895, 666307205, 773529912, 1294757372,
   1396182291, 1695183700, 1986661051, 2177026350, 2456956037,
   2730485921, 2820302411, 3259730800, 3345764771, 3516065817,
   3600352804, 4094571909, 275423344, 430227734, 506948616,
   659060556, 883997877, 958139571, 1322822218, 1537002063,
   1747873779, 1955562222, 2024104815, 2227730452, 2361852424,
   2428436474, 2756734187, 3204031479, 3329325298]

/-- The SHA-256 initial state. -/
def shaH0 : Nat × Nat × Nat × Nat × Nat × Nat × Nat × Nat :=
  (1779033703, 3144134277, 1013904242, 2773480762,
   1359893119, 2600822924, 528734635, 1541459225)

/-- Big-endian rendering of `v` on `n` bytes. -/
def beBytes (n v : Nat) : List Nat :=
  (List.range n).map (fun i => (v >>> (8 * (n - 1 - i))) % 256)

/-- SHA-256 padding of a byte string. -/
def padBytes (msg : List Nat) : List Nat :=
  let len := msg.length
  let k := (120 - ((len + 1) % 64)) % 64
  msg ++ 128 :: List.replicate k 0 ++ beBytes 8 (len * 8)

/-- Split a list into chunks of `n`; the fuel `l.length` always suffices. -/
def chunksAux (n : Nat) : Nat → List Nat → List (List Nat)
  | _, [] => []
  | 0, l => [l]
  | fuel + 1, l => l.take n :: chunksAux n fuel (l.drop n)

def chunks (n : Nat) (l : List Nat) : List (List Nat) := chunksAux n l.length l

/-- Big-endian 32-bit word from a list of 4 bytes. -/
def wordOfBytes (l : List Nat) : Nat := l.foldl (fun a b => a * 256 + b % 256) 0

/-- One step of message-schedule extension; the word list is kept
newest-first, so `w[t-2]` is at index 1 and `w[t-16]` at index 15. -/
def wStep (l : List Nat) : List Nat :=
  w32 (ssig1 (l.getD 1 0) + l.getD 6 0 + ssig0 (l.getD 14 0) + l.getD 15 0) :: l

def wExtend : Nat → List Nat → List Nat
  | 0, l => l
  | n + 1, l => wExtend n (wStep l)

/-- The 64 message-schedule words of one block (given its 16 input words). -/
def schedule (ws : List Nat) : List Nat := (wExtend 48 ws.reverse).reverse

/-- One compression round on the state tuple `(a,b,c,d,e,f,g,h)`. -/
def round8 (s : Nat × Nat × Nat × Nat × Nat × Nat × Nat × Nat) (kw : Nat × Nat) :
    Nat × Nat × Nat × Nat × Nat × Nat × Nat × Nat :=
  match s, kw with
  | (a, b, c, d, e, f, g, h), (k, w) =>
    let t1 := w32 (h + bsig1 e + ch e f g + k + w)
    let t2 := w32 (bsig0 a + maj a b c)
    (w32 (t1 + t2), a, b, c, w32 (d + t1), e, f, g)

/-- Compress one 64-byte block into the running state. -/
def compress (s : Nat × Nat × Nat × Nat × Nat × Nat × Nat × Nat)
    (blockBytes : List Nat) : Nat × Nat × Nat × Nat × Nat × Nat × Nat × Nat :=
  let ws := schedule ((chunks 4 blockBytes).map wordOfBytes)
  match s, (shaK.zip ws).foldl round8 s with
  | (h0, h1, h2, h3, h4, h5, h6, h7), (a, b, c, d, e, f, g, hh) =>
    (w32 (h0 + a), w32 (h1 + b), w32 (h2 + c), w32 (h3 + d),
     w32 (h4 + e), w32 (h5 + f), w32 (h6 + g), w32 (h7 + hh))

/-- The final state, laid out as the 8 digest words. -/
def stateWords (s : Nat × Nat × Nat × Nat × Nat × Nat × Nat × Nat) : List Nat :=
  [s.1, s.2.1, s.2.2.1, s.2.2.2.1, s.2.2.2.2.1, s.2.2.2.2.2.1,
   s.2.2.2.2.2.2.1, s.2.2.2.2.2.2.2]

/-- SHA-256 digest (32 bytes, emission order) of a byte string. -/
def sha256 (msg : List Nat) : List Nat :=
  ((stateWords ((chunks 64 (padBytes msg)).foldl compress shaH0)).map
    (beBytes 4)).flatten

def hexDigitChar (n : Nat) : Char :=
  Char.ofNat (if n < 10 then 48 + n else 87 + n)

/-- Lowercase hex encoding of a byte string (Rust's `hex::encode`). -/
def hexEncode (bytes : List Nat) : String :=
  String.mk ((bytes.map (fun b => [hexDigitChar (b / 16), hexDigitChar (b % 16)])).flatten)

/-- UTF-8 bytes of a character (Rust's `str::as_bytes` per character). -/
def utf8Char (c : Char) : List Nat :=
  let n := c.toNat
  if n < 128 then [n]
  else if n < 2048 then [192 + n / 64, 128 + n % 64]
  else if n < 65536 then [224 + n / 4096, 128 + (n / 64) % 64, 128 + n % 64]
  else [240 + n / 262144, 128 + (n / 4096) % 64, 128 + (n / 64) % 64, 128 + n % 64]

def utf8Encode (s : String) : List Nat := (s.data.map utf8Char).flatten

/-- Hex-encoded SHA-256 of a byte string. -/
def shaHexBytes (bytes : List Nat) : String := hexEncode (sha256 bytes)

/-- Hex-encoded SHA-256 of a string's UTF-8 bytes: the ubiquitous
`hex::encode(Sha256::digest(s.as_bytes()))` of the source. -/
def shaHex (s : String) : String := shaHexBytes (utf8Encode s)

/-! ## Decimal rendering and JSON serialization

`format!("{}")` of the Rust integers, and `serde_json::to_string` of a
transaction vector, reproduced byte for byte on the machine-integer domain.
The decimal fuel 30 covers every `u64`/`i64` (at most 20 digits). -/

def digitChar (n : Nat) : Char := Char.ofNat (48 + n)

def natReprAux : Nat → Nat → List Char
  | 0, _ => []
  | fuel + 1, n => if n < 10 then [digitChar n] else natReprAux fuel (n / 10) ++ [digitChar (n % 10)]

/-- Decimal rendering of a natural number. -/
def natRepr (n : Nat) : String := String.mk (natReprAux 30 n)

/-- Decimal rendering of a signed integer. -/
def intRepr (i : Int) : String :=
  if i < 0 then "-" ++ natRepr i.natAbs else natRepr i.natAbs

/-- serde_json's escaping of one character inside a JSON string. -/
def jsonEscapeChar (c : Char) : List Char :=
  if c = '"' then ['\\', '"']
  else if c = '\\' then ['\\', '\\']
  else if c.toNat = 8 then ['\\', 'b']
  else if c.toNat = 9 then ['\\', 't']
  else if c.toNat = 10 then ['\\', 'n']
  else if c.toNat = 12 then ['\\', 'f']
  else if c.toNat = 13 then ['\\', 'r']
  else if c.toNat < 32 then
    ['\\', 'u', '0', '0', hexDigitChar (c.toNat / 16), hexDigitChar (c.toNat % 16)]
  else [c]

def jsonEscape (s : String) : String := String.mk ((s.data.map jsonEscapeChar).flatten)

/-! ## crypto.rs — commitments and hit proofs -/

/-- The lexicographic order Rust's `sort()` uses on `(u8, u8)` pairs. -/
def pairLE (a b : Nat × Nat) : Prop := a.1 < b.1 ∨ (a.1 = b.1 ∧ a.2 ≤ b.2)

instance : DecidableRel pairLE := fun a b => by
  unfold pairLE; exact inferInstance

instance : IsTotal (Nat × Nat) pairLE := ⟨fun a b => by unfold pairLE; omega⟩

instance : IsTrans (Nat × Nat) pairLE := ⟨fun a b c hab hbc => by
  unfold pairLE at *; omega⟩

instance : IsAntisymm (Nat × Nat) pairLE := ⟨fun a b hab hba => by
  unfold pairLE at *
  obtain ⟨x, y⟩ := a; obtain ⟨u, v⟩ := b
  simp only [Prod.mk.injEq]
  omega⟩

/-- `create_commitment` of crypto.rs: sort the positions, feed each as the two
raw bytes `[x, y]`, then the salt's UTF-8 bytes, into SHA-256; hex-encode. -/
def create_commitment (positions : List (Nat × Nat)) (salt : String) : String :=
  let sorted_positions := List.insertionSort pairLE positions
  shaHexBytes ((sorted_positions.map (fun p => [p.1 % 256, p.2 % 256])).flatten
    ++ utf8Encode salt)

/-- `verify_commitment` of crypto.rs: recompute and compare. -/
def verify_commitment (commitment : String) (positions : List (Nat × Nat))
    (salt : String) : Bool :=
  create_commitment positions salt == commitment

/-- `HitProof` of crypto.rs. -/
structure HitProof where
  commitment : String
  revealed_position : Option (Nat × Nat)
  position_salt : String
  deriving Repr, DecidableEq

/-- `HitProof::verify_hit`: the revealed position must equal the shot, and the
commitment recomputed over the single revealed position with the proof's own
salt must equal the proof's commitment.  `board_commitment` is an argument of
the source function but is never read. -/
def HitProof.verify_hit (pr : HitProof) (shot_position : Nat × Nat)
    (_board_commitment : String) : Bool :=
  match pr.revealed_position with
  | some revealed_pos =>
    if revealed_pos ≠ shot_position then false
    else create_commitment [revealed_pos] pr.position_salt == pr.commitment
  | none => false

/-- `HitProof::verify_miss`: the proof's commitment must equal the board
commitment and no position may be revealed. -/
def HitProof.verify_miss (pr : HitProof) (_shot_position : Nat × Nat)
    (board_commitment : String) : Bool :=
  pr.commitment == board_commitment && pr.revealed_position == none

/-! ## blockchain.rs — transactions, blocks, the chain

`Utc::now().timestamp()` is a read of the ambient clock; every embedded
operation that calls it takes the current time `now : Int` as an argument. -/

/-- `Transaction` of blockchain.rs. -/
structure Transaction where
  player_id : String
  target_x : Nat
  target_y : Nat
  timestamp : Int
  nonce : Nat
  deriving Repr, DecidableEq

def Transaction.new (player_id : String) (target_x target_y : Nat) (nonce : Nat)
    (now : Int) : Transaction :=
  { player_id, target_x, target_y, timestamp := now, nonce }

/-- `serde_json::to_string` of one `Transaction`: fields in declaration order,
no whitespace. -/
def Transaction.toJson (t : Transaction) : String :=
  "\x7b\"player_id\":\"" ++ jsonEscape t.player_id
    ++ "\",\"target_x\":" ++ natRepr t.target_x
    ++ ",\"target_y\":" ++ natRepr t.target_y
    ++ ",\"timestamp\":" ++ intRepr t.timestamp
    ++ ",\"nonce\":" ++ natRepr t.nonce ++ "\x7d"

/-- `serde_json::to_string` of a `Vec<Transaction>`. -/
def txsJson (l : List Transaction) : String :=
  "[" ++ String.intercalate "," (l.map Transaction.toJson) ++ "]"

/-- `Block` of blockchain.rs. -/
structure Block where
  index : Nat
  timestamp : Int
  transactions : List Transaction
  previous_hash : String
  hash : String
  nonce : Nat
  deriving Repr, DecidableEq

/-- `Block::calculate_hash`: SHA-256 over the concatenation
`format!("{}{}{}{}{}", index, timestamp, serialized transactions,
previous_hash, nonce)`, hex-encoded. -/
def Block.calculate_hash (b : Block) : String :=
  shaHex (natRepr b.index ++ intRepr b.timestamp ++ txsJson b.transactions
    ++ b.previous_hash ++ natRepr b.nonce)

/-- `Block::new`: hash starts empty and is immediately recomputed; nonce 0. -/
def Block.new (index : Nat) (transactions : List Transaction)
    (previous_hash : String) (now : Int) : Block :=
  let base : Block := { index, timestamp := now, transactions, previous_hash,
                        hash := "", nonce := 0 }
  { base with hash := base.calculate_hash }

/-- `"0".repeat(difficulty)`. -/
def zeroPrefix (d : Nat) : String := String.mk (List.replicate d '0')

/-- Rust's `str::starts_with`; our hash strings are ASCII, so character-wise
prefix equals byte-wise prefix. -/
def strStartsWith (s p : String) : Bool := p.data.isPrefixOf s.data

/-- One iteration of the `Block::mine` loop body. -/
def Block.mineStep (b : Block) : Block :=
  let b' : Block := { b with nonce := b.nonce + 1 }
  { b' with hash := b'.calculate_hash }

/-- `Block::mine`, an unbounded search in the source, with explicit fuel:
`none` means the Rust loop would still be running after `fuel` iterations. -/
def Block.mine (difficulty : Nat) (fuel : Nat) (b : Block) : Option Block :=
  if strStartsWith b.hash (zeroPrefix difficulty) then some b
  else
    match fuel with
    | 0 => none
    | f + 1 => Block.mine difficulty f b.mineStep

/-- `ShotUtxo` of blockchain.rs. -/
structure ShotUtxo where
  id : String
  owner : String
  created_in_block : Nat
  spent : Bool
  deriving Repr, DecidableEq

/-- `Blockchain` of blockchain.rs. -/
structure Blockchain where
  chain : List Block
  difficulty : Nat
  pending_transactions : List Transaction
  mining_reward : Nat
  shot_utxos : List ShotUtxo
  deriving Repr, DecidableEq

/-- `Blockchain::new` followed by `create_genesis_block`. -/
def Blockchain.new (difficulty : Nat) (now : Int) : Blockchain :=
  { chain := [Block.new 0 [] "0" now], difficulty, pending_transactions := [],
    mining_reward := 1, shot_utxos := [] }

/-- `Blockchain::get_latest_block` unwraps; the empty-chain panic is `none`. -/
def Blockchain.get_latest_block? (bc : Blockchain) : Option Block :=
  bc.chain.getLast?

/-- `Blockchain::add_transaction`: push onto the mempool. -/
def Blockchain.add_transaction (bc : Blockchain) (transaction : Transaction) :
    Blockchain :=
  { bc with pending_transactions := bc.pending_transactions ++ [transaction] }

/-- One miner-reward UTXO: its id is the hex SHA-256 of
`"{miner}:{block_hash}:{i}"`. -/
def mkRewardUtxo (miner_address block_hash : String) (next_index i : Nat) :
    ShotUtxo :=
  { id := shaHex (miner_address ++ ":" ++ block_hash ++ ":" ++ natRepr i),
    owner := miner_address, created_in_block := next_index, spent := false }

/-- `Blockchain::mine_pending_transactions`: build a block from the whole
mempool on top of the head, mine it, append it, clear the mempool, mint
`mining_reward` UTXOs for the miner, return the reward.  `none` when the
chain is empty (source would panic) or the proof-of-work fuel runs out. -/
def Blockchain.mine_pending_transactions (bc : Blockchain)
    (miner_address : String) (now : Int) (fuel : Nat) :
    Option (Blockchain × Nat) :=
  match bc.chain.getLast? with
  | none => none
  | some latest =>
    let next_index := bc.chain.length
    let base := Block.new next_index bc.pending_transactions latest.hash now
    match Block.mine bc.difficulty fuel base with
    | none => none
    | some block =>
      some ({ bc with
              chain := bc.chain ++ [block],
              pending_transactions := [],
              shot_utxos := bc.shot_utxos ++ (List.range bc.mining_reward).map
                (mkRewardUtxo miner_address block.hash next_index) },
            bc.mining_reward)

/-- The three per-block checks of the `is_chain_valid` loop body. -/
def blockOk (difficulty : Nat) (previous_block current_block : Block) : Bool :=
  (current_block.hash == current_block.calculate_hash) &&
  (current_block.previous_hash == previous_block.hash) &&
  strStartsWith current_block.hash (zeroPrefix difficulty)

/-- The `is_chain_valid` loop from index 1 on, carrying the previous block. -/
def validFrom (difficulty : Nat) : Block → List Block → Bool
  | _, [] => true
  | prev, cur :: rest => blockOk difficulty prev cur && validFrom difficulty cur rest

/-- `Blockchain::is_chain_valid`: checks blocks 1.. against their
predecessors; the genesis block itself is never checked. -/
def Blockchain.is_chain_valid (bc : Blockchain) : Bool :=
  match bc.chain with
  | [] => true
  | g :: rest => validFrom bc.difficulty g rest

def Blockchain.get_transaction_count (bc : Blockchain) : Nat :=
  (bc.chain.map (fun b => b.transactions.length)).sum

def Blockchain.get_unspent_shots (bc : Blockchain) (player_id : String) : Nat :=
  (bc.shot_utxos.filter (fun u => u.owner == player_id && !u.spent)).length

/-- Mark the first unspent UTXO of `player_id` spent, if any. -/
def consumeFirst (player_id : String) : List ShotUtxo → Option (List ShotUtxo)
  | [] => none
  | u :: rest =>
    if u.owner == player_id && !u.spent then some ({ u with spent := true } :: rest)
    else (consumeFirst player_id rest).map (u :: ·)

/-- `Blockchain::consume_shot`. -/
def Blockchain.consume_shot (bc : Blockchain) (player_id : String) :
    Except String Blockchain :=
  match consumeFirst player_id bc.shot_utxos with
  | some l => .ok { bc with shot_utxos := l }
  | none => .error "No unspent shot UTXOs available"

/-- `Blockchain::award_registration_shot`; `none` when the chain is empty
(source would panic on the unwrap inside `get_latest_block`). -/
def Blockchain.award_registration_shot (bc : Blockchain) (player_id : String) :
    Option Blockchain :=
  match bc.chain.getLast? with
  | none => none
  | some latest =>
    some { bc with shot_utxos := bc.shot_utxos ++
      [{ id := shaHex (player_id ++ ":" ++ latest.hash ++ ":registration"),
         owner := player_id, created_in_block := latest.index, spent := false }] }

/-- `Blockchain::load_from_file`, modelled from the point where the file was
read and `serde_json::from_str` succeeded: the serde round-trip is the
identity on the stored `Blockchain` value, so the content that remains is the
re-validation step, which rejects the value iff `is_chain_valid` fails. -/
def Blockchain.load_from_snapshot (bc : Blockchain) : Except String Blockchain :=
  if bc.is_chain_valid then .ok bc else .error "Loaded blockchain is invalid"

/-! ## game.rs — ships, grid, players -/

/-- `Ship` of game.rs. -/
structure Ship where
  id : String
  positions : List (Nat × Nat)
  hits : List Bool
  deriving Repr, DecidableEq

def Ship.new (id : String) (positions : List (Nat × Nat)) : Ship :=
  { id, positions, hits := List.replicate positions.length false }

def Ship.is_sunk (s : Ship) : Bool := s.hits.all (fun h => h)

/-- `Grid` of game.rs; the `HashMap` is embedded as an association list with
unique keys (first match wins on lookup). -/
structure Grid where
  size : Nat
  cells : List ((Nat × Nat) × List String)
  deriving Repr, DecidableEq

def Grid.new (size : Nat) : Grid := { size, cells := [] }

/-- `cells.entry(pos).or_insert_with(Vec::new).push(player_id)`. -/
def cellsPush (pos : Nat × Nat) (player_id : String) :
    List ((Nat × Nat) × List String) → List ((Nat × Nat) × List String)
  | [] => [(pos, [player_id])]
  | (p, owners) :: rest =>
    if p = pos then (p, owners ++ [player_id]) :: rest
    else (p, owners) :: cellsPush pos player_id rest

/-- `Grid::place_ship`: every position is bounds-checked first; only then is
ownership recorded, so a single call is all-or-nothing. -/
def Grid.place_ship (g : Grid) (player_id : String)
    (positions : List (Nat × Nat)) : Except String Grid :=
  match positions.find? (fun p => decide (g.size ≤ p.1) || decide (g.size ≤ p.2)) with
  | some p => .error ("Position (" ++ natRepr p.1 ++ ", " ++ natRepr p.2
      ++ ") is out of bounds")
  | none => .ok { g with
      cells := positions.foldl (fun cs pos => cellsPush pos player_id cs) g.cells }

def Grid.get_players_at (g : Grid) (x y : Nat) : List String :=
  match g.cells.find? (fun e => e.1 = (x, y)) with
  | some e => e.2
  | none => []

/-- `Player` of game.rs. -/
structure Player where
  id : String
  ships : List Ship
  board_commitment : String
  salt : String
  shots_available : Nat
  shots_fired : List (Nat × Nat)
  deriving Repr, DecidableEq

def Player.new (id : String) (ships : List Ship) (board_commitment salt : String) :
    Player :=
  { id, ships, board_commitment, salt, shots_available := 0, shots_fired := [] }

def Player.add_shots (p : Player) (count : Nat) : Player :=
  { p with shots_available := p.shots_available + count }

/-- `Player::fire_shot`: requires a positive balance; decrements it and logs
the shot.  On the error path the Rust method mutates nothing. -/
def Player.fire_shot (p : Player) (x y : Nat) : Except String Player :=
  if p.shots_available = 0 then .error "No shots available"
  else .ok { p with shots_available := p.shots_available - 1,
                    shots_fired := p.shots_fired ++ [(x, y)] }

def Player.is_defeated (p : Player) : Bool := p.ships.all Ship.is_sunk

/-! ## coordinator.rs — the game coordinator

The player `HashMap` is embedded as an association list with unique keys;
`blockchain_path` persistence only writes to disk (failures are merely
logged), so the save calls are identities here. -/

def playersLookup : List (String × Player) → String → Option Player
  | [], _ => none
  | (k, v) :: rest, key => if k = key then some v else playersLookup rest key

/-- `HashMap::get_mut` followed by an in-place mutation. -/
def playersUpdate : List (String × Player) → String → (Player → Player) →
    List (String × Player)
  | [], _, _ => []
  | (k, v) :: rest, key, f =>
    (if k = key then (k, f v) else (k, v)) :: playersUpdate rest key f

/-- `HashMap::insert`: replace the existing entry or add a new one. -/
def playersInsert (ps : List (String × Player)) (key : String) (v : Player) :
    List (String × Player) :=
  if (playersLookup ps key).isSome then
    ps.map (fun e => if e.1 = key then (key, v) else e)
  else ps ++ [(key, v)]

/-- `GameCoordinator` of coordinator.rs. -/
structure GameCoordinator where
  blockchain : Blockchain
  grid : Grid
  players : List (String × Player)
  round : Nat
  deriving Repr, DecidableEq

def GameCoordinator.new (grid_size mining_difficulty : Nat) (now : Int) :
    GameCoordinator :=
  { blockchain := Blockchain.new mining_difficulty now,
    grid := Grid.new grid_size, players := [], round := 0 }

/-- The two consecutive-run checks of `is_valid_ship_placement`, along the
first and second coordinate respectively. -/
def consecFst : List (Nat × Nat) → Bool
  | [] => true
  | [_] => true
  | a :: b :: rest => (b.1 == a.1 + 1) && consecFst (b :: rest)

def consecSnd : List (Nat × Nat) → Bool
  | [] => true
  | [_] => true
  | a :: b :: rest => (b.2 == a.2 + 1) && consecSnd (b :: rest)

/-- `GameCoordinator::is_valid_ship_placement`: nonempty; singletons pass;
otherwise sort and require one shared row with consecutive columns, or one
shared column with consecutive rows. -/
def GameCoordinator.is_valid_ship_placement (positions : List (Nat × Nat)) : Bool :=
  if positions.isEmpty then false
  else if positions.length == 1 then true
  else
    let sorted_positions := List.insertionSort pairLE positions
    let head := sorted_positions.headD (0, 0)
    if sorted_positions.all (fun p => p.2 == head.2) then consecFst sorted_positions
    else if sorted_positions.all (fun p => p.1 == head.1) then consecSnd sorted_positions
    else false

/-- The `for ship in &ships { self.grid.place_ship(..)? }` loop: ships are
placed one at a time and an error aborts the loop, keeping the mutations the
earlier iterations already made. -/
def placeShips (player_id : String) : Grid → List Ship → Option String × Grid
  | g, [] => (none, g)
  | g, ship :: rest =>
    match g.place_ship player_id ship.positions with
    | .error e => (some e, g)
    | .ok g' => placeShips player_id g' rest

/-- `GameCoordinator::register_player`.  The pair carries the result and the
post-call state, so the effect of the error paths is visible. -/
def GameCoordinator.register_player (s : GameCoordinator) (player_id : String)
    (ships : List Ship) (board_commitment salt : String) :
    Except String Unit × GameCoordinator :=
  if ships.length ≠ 4 then (.error "Fleet must contain exactly 4 ships", s)
  else
    let ship_sizes := List.insertionSort (fun a b => a ≤ b)
      (ships.map (fun sh => sh.positions.length))
    if ship_sizes ≠ [1, 2, 3, 4] then
      (.error "Fleet must contain: 1 Carrier (4 cells), 1 Cruiser (3 cells), 1 Submarine (2 cells), 1 Destroyer (1 cell)", s)
    else
      match ships.find? (fun sh => !GameCoordinator.is_valid_ship_placement sh.positions) with
      | some sh =>
        (.error ("Ship '" ++ sh.id
          ++ "' must be placed horizontally or vertically in a continuous line"), s)
      | none =>
        let all_positions := (ships.map (fun sh => sh.positions)).flatten
        if !verify_commitment board_commitment all_positions salt then
          (.error "Invalid board commitment", s)
        else
          match placeShips player_id s.grid ships with
          | (some e, g) => (.error e, { s with grid := g })
          | (none, g) =>
            (.ok (), { s with
                       grid := g,
                       players := playersInsert s.players player_id
                         (Player.new player_id ships board_commitment salt) })

def GameCoordinator.is_player_defeated (s : GameCoordinator)
    (player_id : String) : Bool :=
  ((playersLookup s.players player_id).map Player.is_defeated).getD false

/-- `GameCoordinator::mine_for_shots`; the outer `none` is proof-of-work fuel
exhaustion (the Rust call would still be mining). -/
def GameCoordinator.mine_for_shots (s : GameCoordinator) (player_id : String)
    (now : Int) (fuel : Nat) : Option (Except String (Nat × GameCoordinator)) :=
  if (playersLookup s.players player_id).isNone then
    some (.error "Player not found")
  else if s.is_player_defeated player_id then
    some (.error "Defeated players cannot mine")
  else
    match s.blockchain.mine_pending_transactions player_id now fuel with
    | none => none
    | some (bc, shots_earned) =>
      some (.ok (shots_earned,
        { s with blockchain := bc,
                 players := playersUpdate s.players player_id
                   (fun p => p.add_shots shots_earned) }))

/-- `GameCoordinator::fire_shot`: look the player up, let it spend a shot,
then append the transaction to the mempool.  The pair carries the result and
the post-call state. -/
def GameCoordinator.fire_shot (s : GameCoordinator) (player_id : String)
    (target_x target_y : Nat) (now : Int) :
    Except String Unit × GameCoordinator :=
  match playersLookup s.players player_id with
  | none => (.error "Player not found", s)
  | some player =>
    match player.fire_shot target_x target_y with
    | .error e => (.error e, s)
    | .ok player' =>
      let transaction := Transaction.new player_id target_x target_y 0 now
      (.ok (), { s with
        players := playersUpdate s.players player_id (fun _ => player'),
        blockchain := s.blockchain.add_transaction transaction })

instance {ε α : Type} [DecidableEq ε] [DecidableEq α] : DecidableEq (Except ε α) :=
  fun a b =>
    match a, b with
    | .error e1, .error e2 => decidable_of_iff (e1 = e2) (by simp)
    | .error _, .ok _ => isFalse (by simp)
    | .ok _, .error _ => isFalse (by simp)
    | .ok x, .ok y => decidable_of_iff (x = y) (by simp)

/-! ## Concrete instances used by witnesses and counterexamples -/

/-- A stand-in head block (its content is irrelevant to every check that
follows, since `is_chain_valid` never examines the genesis block itself). -/
def gDummy : Block :=
  { index := 0, timestamp := 0, transactions := [], previous_hash := "0",
    hash := "g", nonce := 0 }

def c1Ships : List Ship :=
  [Ship.new "d" [(0, 0)], Ship.new "s" [(1, 0), (1, 1)],
   Ship.new "c" [(2, 0), (2, 1), (2, 2)],
   Ship.new "a" [(7, 0), (7, 1), (7, 2), (7, 3)]]

def c1State : GameCoordinator := GameCoordinator.new 5 0 0

def c1AllPositions : List (Nat × Nat) := (c1Ships.map (fun sh => sh.positions)).flatten

def c4Tx : Transaction :=
  { player_id := "p1", target_x := 2, target_y := 3, timestamp := 0, nonce := 0 }

def c4Chain : Blockchain :=
  { chain := [gDummy], difficulty := 0, pending_transactions := [c4Tx],
    mining_reward := 1, shot_utxos := [] }

def c4Mined : Block := Block.new 1 [c4Tx] "g" 0

def c4Chain' : Blockchain :=
  { c4Chain with
    chain := [gDummy, c4Mined], pending_transactions := [],
    shot_utxos := [mkRewardUtxo "m" c4Mined.hash 1 0] }

def c9Player : Player := Player.new "p1" [Ship.new "d" [(0, 0)]] "c" "s"

def c9Blockchain : Blockchain :=
  { chain := [gDummy], difficulty := 0, pending_transactions := [],
    mining_reward := 1, shot_utxos := [] }

def c9State : GameCoordinator :=
  { blockchain := c9Blockchain, grid := Grid.new 5,
    players := [("p1", c9Player)], round := 0 }

def c9Mined : Block := Block.new 1 [] "g" 0

def c9Blockchain' : Blockchain :=
  { c9Blockchain with
    chain := [gDummy, c9Mined], pending_transactions := [],
    shot_utxos := [mkRewardUtxo "p1" c9Mined.hash 1 0] }

def c9State' : GameCoordinator :=
  { c9State with
    blockchain := c9Blockchain',
    players := playersUpdate c9State.players "p1" (fun p => p.add_shots 1) }

def c5Block : Block := Block.new 1 [] "g" 0

def c5Valid : Blockchain :=
  { chain := [gDummy, c5Block], difficulty := 0, pending_transactions := [],
    mining_reward := 1, shot_utxos := [] }

def c5Tx : Transaction :=
  { player_id := "q", target_x := 1, target_y := 1, timestamp := 0, nonce := 0 }

/-! ## Definitions for the SHA-256 pigeonhole argument -/

/-- Base-256 value of a byte string (most significant byte first). -/
def digestFold (acc : Nat) (l : List Nat) : Nat :=
  l.foldl (fun a b => a * 256 + b) acc

/-- Pairwise distinct player ids: `n` repetitions of `a`. -/
def padPid (n : Nat) : String := String.mk (List.replicate n 'a')

def cTx (n : Nat) : Transaction :=
  { player_id := padPid n, target_x := 0, target_y := 0, timestamp := 0, nonce := 0 }

def cBlock (n : Nat) : Block := Block.new 1 [cTx n] "g" 0

/-- The string `Block::calculate_hash` feeds to SHA-256 for `cBlock n`. -/
def cData (n : Nat) : String :=
  natRepr 1 ++ intRepr 0 ++ txsJson [cTx n] ++ "g" ++ natRepr 0

def cChain (n : Nat) : Blockchain :=
  { chain := [gDummy, cBlock n], difficulty := 0, pending_transactions := [],
    mining_reward := 1, shot_utxos := [] }

/-- The last element of a block list, or `p` when it is empty: the running
"previous block" of the `is_chain_valid` loop. -/
def lastOr (p : Block) : List Block → Block
  | [] => p
  | a :: t => lastOr a t

/-! ## Helper lemmas -/

theorem playersLookup_update (ps : List (String × Player)) (k : String)
    (f : Player → Player) :
    playersLookup (playersUpdate ps k f) k = (playersLookup ps k).map f := by
  induction ps with
  | nil => rfl
  | cons e rest ih =>
    obtain ⟨k', v⟩ := e
    by_cases h : k' = k
    · rw [playersUpdate, if_pos h]
      simp [playersLookup, h]
    · rw [playersUpdate, if_neg h]
      simp [playersLookup, h, ih]

/-- `calculate_hash` never reads the `hash` field. -/
theorem calculate_hash_set_hash (b : Block) (h : String) :
    Block.calculate_hash { b with hash := h } = b.calculate_hash := rfl

/-- A freshly built block's stored hash is its recomputed hash. -/
theorem Block_new_hash_eq (index : Nat) (txs : List Transaction)
    (prev : String) (now : Int) :
    (Block.new index txs prev now).hash = (Block.new index txs prev now).calculate_hash := rfl

/-! ## C1 — what a failed registration leaves behind -/

/-- `place_ship` never changes the grid size. -/
theorem place_ship_size (g : Grid) (pid : String) (ps : List (Nat × Nat))
    (g' : Grid) (h : g.place_ship pid ps = .ok g') : g'.size = g.size := by
  unfold Grid.place_ship at h
  split at h
  · cases h
  · cases h; rfl

/-- When every position of every ship is in bounds, the placement loop never
errors. -/
theorem placeShips_inbounds (pid : String) :
    ∀ (ships : List Ship) (g : Grid),
    (∀ sh ∈ ships, ∀ p ∈ sh.positions, p.1 < g.size ∧ p.2 < g.size) →
    (placeShips pid g ships).1 = none := by
  intro ships
  induction ships with
  | nil => intro g _; rfl
  | cons sh rest ih =>
    intro g hb
    have hfind : sh.positions.find?
        (fun p => decide (g.size ≤ p.1) || decide (g.size ≤ p.2)) = none := by
      rw [List.find?_eq_none]
      intro p hp
      have h2 := hb sh (by simp) p hp
      simp only [Bool.or_eq_true, decide_eq_true_eq]
      omega
    have hok : g.place_ship pid sh.positions = .ok { g with cells := sh.positions.foldl (fun cs pos => cellsPush pos pid cs) g.cells } := by
      unfold Grid.place_ship
      rw [hfind]
    unfold placeShips
    rw [hok]
    exact ih _ (fun sh' hsh' p hp => hb sh' (by simp [hsh']) p hp)

/-- C1 (corrected claim): when `register_player` fails, the player map, the
blockchain and the round counter are untouched, and if every submitted
position is within the grid — so the failure came from one of the four
validation checks that precede placement — the whole state is exactly as
before.  (An out-of-bounds failure, by contrast, can leave earlier ships
placed; see the counterexample.) -/
theorem C1_register_error_frame (s : GameCoordinator) (pid : String)
    (ships : List Ship) (bcm salt e : String) (s2 : GameCoordinator)
    (h : s.register_player pid ships bcm salt = (.error e, s2)) :
    s2.players = s.players ∧ s2.blockchain = s.blockchain ∧ s2.round = s.round ∧
    ((∀ sh ∈ ships, ∀ p ∈ sh.positions, p.1 < s.grid.size ∧ p.2 < s.grid.size) →
      s2 = s) := by
  unfold GameCoordinator.register_player at h
  by_cases h1 : ships.length ≠ 4
  · rw [if_pos h1] at h
    simp only [Prod.mk.injEq] at h
    obtain ⟨-, rfl⟩ := h
    exact ⟨rfl, rfl, rfl, fun _ => rfl⟩
  · rw [if_neg h1] at h
    simp only [] at h
    by_cases h2 : List.insertionSort (fun a b => a ≤ b)
        (ships.map (fun sh => sh.positions.length)) ≠ [1, 2, 3, 4]
    · rw [if_pos h2] at h
      simp only [Prod.mk.injEq] at h
      obtain ⟨-, rfl⟩ := h
      exact ⟨rfl, rfl, rfl, fun _ => rfl⟩
    · rw [if_neg h2] at h
      cases hfind : ships.find?
          (fun sh => !GameCoordinator.is_valid_ship_placement sh.positions) with
      | some sh =>
        simp only [hfind] at h
        simp only [Prod.mk.injEq] at h
        obtain ⟨-, rfl⟩ := h
        exact ⟨rfl, rfl, rfl, fun _ => rfl⟩
      | none =>
        simp only [hfind] at h
        by_cases h3 : (!verify_commitment bcm
            ((ships.map (fun sh => sh.positions)).flatten) salt) = true
        · rw [if_pos h3] at h
          simp only [Prod.mk.injEq] at h
          obtain ⟨-, rfl⟩ := h
          exact ⟨rfl, rfl, rfl, fun _ => rfl⟩
        · rw [if_neg h3] at h
          rcases hps : placeShips pid s.grid ships with ⟨o, g⟩
          cases o with
          | some e' =>
            simp only [hps] at h
            simp only [Prod.mk.injEq] at h
            obtain ⟨-, rfl⟩ := h
            refine ⟨rfl, rfl, rfl, fun hb => ?_⟩
            have hnone := placeShips_inbounds pid ships s.grid hb
            rw [hps] at hnone
            cases hnone
          | none =>
            simp only [hps] at h
            simp only [Prod.mk.injEq] at h
            obtain ⟨hfalse, -⟩ := h
            cases hfalse

/-- Witness for C1: a 3-ship fleet is rejected by the count check and the
state is exactly as before. -/
theorem C1_register_error_frame_witness :
    ((c1State.register_player "p1" (c1Ships.take 3) "c" "s").2.players
      = c1State.players) ∧
    (c1State.register_player "p1" (c1Ships.take 3) "c" "s").2 = c1State := by
  have h := C1_register_error_frame c1State "p1" (c1Ships.take 3) "c" "s"
    "Fleet must contain exactly 4 ships"
    (c1State.register_player "p1" (c1Ships.take 3) "c" "s").2 (by rfl)
  exact ⟨h.1, h.2.2.2 (by decide)⟩

/-- C1 counterexample: a fleet that passes all four validation checks but
whose last ship is out of bounds is rejected with the grid already holding
the first three ships — the claimed all-or-nothing behaviour fails for the
out-of-bounds error.  (The player map is still untouched.) -/
theorem C1_counterexample :
    (c1State.register_player "p1" c1Ships
        (create_commitment c1AllPositions "s") "s").1 =
      .error "Position (7, 0) is out of bounds" ∧
    (c1State.register_player "p1" c1Ships
        (create_commitment c1AllPositions "s") "s").2.grid.cells ≠
      c1State.grid.cells ∧
    (c1State.register_player "p1" c1Ships
        (create_commitment c1AllPositions "s") "s").2.players = c1State.players := by
  refine ⟨by decide, by decide, by decide⟩

/-! ## C2 — the genesis block of `Blockchain::new(2)` -/

/-- C2 (corrected claim): for every clock value, `Blockchain::new(2)` yields a
one-block chain whose genesis has `previous_hash = "0"` and a stored hash
equal to its recomputed hash.  (The difficulty-2 prefix of the original claim
fails; see the counterexample.) -/
theorem C2_genesis_shape (now : Int) :
    (Blockchain.new 2 now).chain = [Block.new 0 [] "0" now] ∧
    (Block.new 0 [] "0" now).previous_hash = "0" ∧
    (Block.new 0 [] "0" now).hash = (Block.new 0 [] "0" now).calculate_hash := by
  exact ⟨rfl, rfl, rfl⟩

/-- C2 counterexample: in the call `Blockchain::new(2)` made at clock 0, the
unique (genesis) block's hash does not start with `"00"` — genesis is built
by `Block::new` and never mined to the difficulty. -/
theorem C2_counterexample :
    (Blockchain.new 2 0).chain.map
      (fun b => strStartsWith b.hash (zeroPrefix 2)) = [false] := by
  decide

/-! ## C3 — load re-validation -/

/-- C3 (corrected claim): loading a snapshot re-validates with
`is_chain_valid` and accepts exactly the snapshots that pass it; a tampering
that keeps the chain valid — in particular any genesis-content tampering that
leaves the stored hash field alone — is accepted, not rejected. -/
theorem C3_load_revalidates (bc : Blockchain) :
    (bc.load_from_snapshot = .ok bc ↔ bc.is_chain_valid = true) ∧
    (bc.is_chain_valid = false →
      bc.load_from_snapshot = .error "Loaded blockchain is invalid") := by
  constructor
  · constructor
    · intro h
      by_cases hv : bc.is_chain_valid
      · exact hv
      · simp [Blockchain.load_from_snapshot, hv] at h
    · intro hv
      simp [Blockchain.load_from_snapshot, hv]
  · intro hv
    simp [Blockchain.load_from_snapshot, hv]

/-- Witness for C3: a chain whose second block misstates `previous_hash`
fails validation, so the modelled load rejects it. -/
theorem C3_load_revalidates_witness :
    Blockchain.load_from_snapshot
      { chain := [{ index := 0, timestamp := 0, transactions := [],
                    previous_hash := "0", hash := "h", nonce := 0 },
                  { index := 1, timestamp := 0, transactions := [],
                    previous_hash := "x", hash := "h2", nonce := 0 }],
        difficulty := 0, pending_transactions := [], mining_reward := 1,
        shot_utxos := [] } = .error "Loaded blockchain is invalid" := by
  exact (C3_load_revalidates _).2 (by decide)

/-- C3 counterexample: serialize the (valid) fresh chain of
`Blockchain::new(2)`, tamper with the genesis block's content (its
timestamp), and the load still accepts the tampered snapshot: `is_chain_valid`
never checks the genesis block. -/
theorem C3_counterexample :
    (Blockchain.new 2 0).is_chain_valid = true ∧
    ({ Blockchain.new 2 0 with
        chain := [{ Block.new 0 [] "0" 0 with timestamp := 1 }] } : Blockchain)
      ≠ Blockchain.new 2 0 ∧
    Blockchain.load_from_snapshot
      { Blockchain.new 2 0 with
        chain := [{ Block.new 0 [] "0" 0 with timestamp := 1 }] } =
      .ok { Blockchain.new 2 0 with
            chain := [{ Block.new 0 [] "0" 0 with timestamp := 1 }] } := by
  refine ⟨rfl, ?_, rfl⟩
  intro h
  have := congrArg (fun bc => bc.chain.map Block.timestamp) h
  simp [Blockchain.new, Block.new] at this

/-! ## C4 — what mining does -/

/-- The proof-of-work search only moves the nonce and the hash; the
transactions of the block are untouched. -/
theorem Block_mine_transactions (d : Nat) :
    ∀ (fuel : Nat) (b b' : Block), Block.mine d fuel b = some b' →
      b'.transactions = b.transactions := by
  intro fuel
  induction fuel with
  | zero =>
    intro b b' h
    unfold Block.mine at h
    split at h
    · cases h; rfl
    · simp at h
  | succ f ih =>
    intro b b' h
    unfold Block.mine at h
    split at h
    · cases h; rfl
    · exact (ih _ _ h).trans rfl

/-- C4 (as claimed): a successful `mine_pending_transactions miner` appends
exactly one block carrying the prior mempool (in order), empties the mempool,
appends exactly `mining_reward` fresh unspent UTXOs owned by the miner whose
ids are derived from `(miner, new block hash, sequence)`, and returns
`mining_reward`. -/
theorem C4_mine_pending (bc : Blockchain) (miner : String) (now : Int)
    (fuel : Nat) (bc' : Blockchain) (r : Nat)
    (h : bc.mine_pending_transactions miner now fuel = some (bc', r)) :
    ∃ block : Block,
      bc'.chain = bc.chain ++ [block] ∧
      block.transactions = bc.pending_transactions ∧
      bc'.pending_transactions = [] ∧
      bc'.shot_utxos = bc.shot_utxos ++ (List.range bc.mining_reward).map
        (mkRewardUtxo miner block.hash bc.chain.length) ∧
      r = bc.mining_reward ∧
      (∀ u ∈ (List.range bc.mining_reward).map
          (mkRewardUtxo miner block.hash bc.chain.length),
        u.owner = miner ∧ u.spent = false) := by
  unfold Blockchain.mine_pending_transactions at h
  cases hlast : bc.chain.getLast? with
  | none => simp only [hlast] at h; exact Option.noConfusion h
  | some latest =>
    simp only [hlast] at h
    cases hm : Block.mine bc.difficulty fuel
        (Block.new bc.chain.length bc.pending_transactions latest.hash now) with
    | none => simp only [hm] at h; exact Option.noConfusion h
    | some block =>
      simp only [hm, Option.some.injEq, Prod.mk.injEq] at h
      obtain ⟨h4, h5⟩ := h
      subst h4; subst h5
      refine ⟨block, rfl, ?_, rfl, rfl, rfl, ?_⟩
      · exact (Block_mine_transactions _ _ _ _ hm).trans rfl
      · intro u hu
        simp only [List.mem_map] at hu
        obtain ⟨i, -, rfl⟩ := hu
        exact ⟨rfl, rfl⟩

/-- Witness for C4: mining the one-transaction mempool of `c4Chain` at
difficulty 0. -/
theorem C4_mine_pending_witness :
    ∃ block : Block,
      c4Chain'.chain = c4Chain.chain ++ [block] ∧
      block.transactions = c4Chain.pending_transactions ∧
      c4Chain'.pending_transactions = [] ∧
      c4Chain'.shot_utxos = c4Chain.shot_utxos ++
        (List.range c4Chain.mining_reward).map
          (mkRewardUtxo "m" block.hash c4Chain.chain.length) ∧
      1 = c4Chain.mining_reward ∧
      (∀ u ∈ (List.range c4Chain.mining_reward).map
          (mkRewardUtxo "m" block.hash c4Chain.chain.length),
        u.owner = "m" ∧ u.spent = false) :=
  C4_mine_pending c4Chain "m" 0 0 c4Chain' 1 (by rfl)

/-! ## C5 — tamper evidence of `is_chain_valid` -/

theorem lastOr_cons (a p : Block) (t : List Block) :
    lastOr p (a :: t) = lastOr a t := rfl

/-- If the loop-body check fails at some block, the whole validation is
false. -/
theorem validFrom_fail (d : Nat) :
    ∀ (l1 : List Block) (p b : Block) (l2 : List Block),
      blockOk d (lastOr p l1) b = false →
      validFrom d p (l1 ++ b :: l2) = false := by
  intro l1
  induction l1 with
  | nil =>
    intro p b l2 h
    simp only [lastOr] at h
    simp only [List.nil_append, validFrom, h, Bool.false_and]
  | cons a t ih =>
    intro p b l2 h
    rw [List.cons_append]
    show (blockOk d p a && validFrom d a (t ++ b :: l2)) = false
    rw [ih a b l2 h, Bool.and_false]

/-- A valid chain passes the loop-body check at every non-head block. -/
theorem validFrom_ok_at (d : Nat) :
    ∀ (l1 : List Block) (p b : Block) (l2 : List Block),
      validFrom d p (l1 ++ b :: l2) = true →
      blockOk d (lastOr p l1) b = true := by
  intro l1
  induction l1 with
  | nil =>
    intro p b l2 h
    simp only [List.nil_append, validFrom, Bool.and_eq_true] at h
    exact h.1
  | cons a t ih =>
    intro p b l2 h
    rw [List.cons_append] at h
    replace h : (blockOk d p a && validFrom d a (t ++ b :: l2)) = true := h
    rw [Bool.and_eq_true] at h
    exact ih a b l2 h.2

/-- Reading `is_chain_valid` off a cons-shaped chain. -/
theorem is_chain_valid_cons (bc : Blockchain) (g : Block) (rest : List Block)
    (h : bc.chain = g :: rest) :
    bc.is_chain_valid = validFrom bc.difficulty g rest := by
  unfold Blockchain.is_chain_valid
  rw [h]

/-- C5 (corrected claim): on a valid chain, rewriting the `hash` or the
`previous_hash` field of any block at index ≥ 1 to a different value always
makes `is_chain_valid` false; rewriting its `nonce` or its transaction list
does so whenever the hash recomputed over the tampered block differs from the
stored hash — that is, absent a SHA-256 collision (which, per the
counterexample, cannot be excluded for arbitrary chains). -/
theorem C5_tamper_detection (bc : Blockchain) (g : Block)
    (pre suf : List Block) (b : Block)
    (hchain : bc.chain = g :: (pre ++ b :: suf))
    (hvalid : bc.is_chain_valid = true) :
    (∀ h', h' ≠ b.hash →
      Blockchain.is_chain_valid
        { bc with chain := g :: (pre ++ { b with hash := h' } :: suf) } = false) ∧
    (∀ p', p' ≠ b.previous_hash →
      Blockchain.is_chain_valid
        { bc with chain := g :: (pre ++ { b with previous_hash := p' } :: suf) } = false) ∧
    (∀ n', Block.calculate_hash { b with nonce := n' } ≠ b.hash →
      Blockchain.is_chain_valid
        { bc with chain := g :: (pre ++ { b with nonce := n' } :: suf) } = false) ∧
    (∀ ts', Block.calculate_hash { b with transactions := ts' } ≠ b.hash →
      Blockchain.is_chain_valid
        { bc with chain := g :: (pre ++ { b with transactions := ts' } :: suf) } = false) := by
  rw [is_chain_valid_cons bc g (pre ++ b :: suf) hchain] at hvalid
  have hOk := validFrom_ok_at bc.difficulty pre g b suf hvalid
  simp only [blockOk, Bool.and_eq_true, beq_iff_eq] at hOk
  obtain ⟨⟨hhash, hprev⟩, hpow⟩ := hOk
  refine ⟨?_, ?_, ?_, ?_⟩
  · intro h' hne
    rw [is_chain_valid_cons _ g (pre ++ { b with hash := h' } :: suf) rfl]
    apply validFrom_fail
    have : ({ b with hash := h' } : Block).calculate_hash = b.calculate_hash := rfl
    simp only [blockOk, this, ← hhash]
    rw [beq_eq_false_iff_ne.2 hne]
    simp
  · intro p' hne
    rw [is_chain_valid_cons _ g (pre ++ { b with previous_hash := p' } :: suf) rfl]
    apply validFrom_fail
    simp only [blockOk]
    have : (({ b with previous_hash := p' } : Block).previous_hash ==
        (lastOr g pre).hash) = false := by
      rw [beq_eq_false_iff_ne]
      show p' ≠ (lastOr g pre).hash
      rw [← hprev]
      exact hne
    rw [this]
    simp
  · intro n' hne
    rw [is_chain_valid_cons _ g (pre ++ { b with nonce := n' } :: suf) rfl]
    apply validFrom_fail
    simp only [blockOk]
    have : (({ b with nonce := n' } : Block).hash ==
        ({ b with nonce := n' } : Block).calculate_hash) = false := by
      rw [beq_eq_false_iff_ne]
      exact fun hcontra => hne hcontra.symm
    rw [this]
    simp
  · intro ts' hne
    rw [is_chain_valid_cons _ g (pre ++ { b with transactions := ts' } :: suf) rfl]
    apply validFrom_fail
    simp only [blockOk]
    have : (({ b with transactions := ts' } : Block).hash ==
        ({ b with transactions := ts' } : Block).calculate_hash) = false := by
      rw [beq_eq_false_iff_ne]
      exact fun hcontra => hne hcontra.symm
    rw [this]
    simp

set_option maxRecDepth 100000 in
/-- Witness for C5 on the concrete valid two-block difficulty-0 chain
`c5Valid`: each of the four single-field tamperings is caught. -/
theorem C5_tamper_detection_witness :
    Blockchain.is_chain_valid
      { c5Valid with chain := gDummy :: ([] ++ { c5Block with hash := "x" } :: []) } = false ∧
    Blockchain.is_chain_valid
      { c5Valid with chain := gDummy :: ([] ++ { c5Block with previous_hash := "x" } :: []) } = false ∧
    Blockchain.is_chain_valid
      { c5Valid with chain := gDummy :: ([] ++ { c5Block with nonce := 1 } :: []) } = false ∧
    Blockchain.is_chain_valid
      { c5Valid with chain := gDummy :: ([] ++ { c5Block with transactions := [c5Tx] } :: []) } = false := by
  have h := C5_tamper_detection c5Valid gDummy [] [] c5Block rfl (by decide)
  exact ⟨h.1 "x" (by decide), h.2.1 "x" (by decide), h.2.2.1 1 (by decide),
    h.2.2.2 [c5Tx] (by decide)⟩

/-! ## The SHA-256 pigeonhole argument

`is_chain_valid` compares 256-bit digests of arbitrarily long block data, so
over all chains a collision provably exists (infinitely many candidate
transactions, finitely many digests); the counterexample for C5 is built on
one. -/

theorem beBytes_length (n v : Nat) : (beBytes n v).length = n := by
  simp [beBytes]

theorem beBytes_lt (n v : Nat) : ∀ b ∈ beBytes n v, b < 256 := by
  intro b hb
  simp only [beBytes, List.mem_map] at hb
  obtain ⟨i, -, rfl⟩ := hb
  exact Nat.mod_lt _ (by norm_num)

theorem sha256_length (m : List Nat) : (sha256 m).length = 32 := by
  simp [sha256, stateWords, beBytes_length]

theorem sha256_lt (m : List Nat) : ∀ b ∈ sha256 m, b < 256 := by
  intro b hb
  unfold sha256 at hb
  rw [List.mem_flatten] at hb
  obtain ⟨l, hl, hbl⟩ := hb
  rw [List.mem_map] at hl
  obtain ⟨w, -, rfl⟩ := hl
  exact beBytes_lt 4 w b hbl

theorem digestFold_cons (acc b : Nat) (t : List Nat) :
    digestFold acc (b :: t) = digestFold (acc * 256 + b) t := rfl

theorem digestFold_acc : ∀ (l : List Nat) (acc : Nat),
    digestFold acc l = acc * 256 ^ l.length + digestFold 0 l := by
  intro l
  induction l with
  | nil => intro acc; simp [digestFold]
  | cons b t ih =>
    intro acc
    have hz : digestFold 0 (b :: t) = b * 256 ^ t.length + digestFold 0 t := by
      rw [digestFold_cons]
      have h0 : (0 : Nat) * 256 + b = b := by omega
      rw [h0, ih b]
    rw [digestFold_cons, ih (acc * 256 + b), hz]
    simp only [List.length_cons, pow_succ]
    ring

theorem digestFold_lt : ∀ (l : List Nat), (∀ b ∈ l, b < 256) →
    ∀ acc, digestFold acc l < 256 ^ l.length * (acc + 1) := by
  intro l
  induction l with
  | nil => intro _ acc; simp [digestFold]
  | cons b t ih =>
    intro hb acc
    rw [digestFold_cons]
    have h2 : b < 256 := hb b (by simp)
    calc digestFold (acc * 256 + b) t
        < 256 ^ t.length * (acc * 256 + b + 1) :=
          ih (fun x hx => hb x (by simp [hx])) _
      _ ≤ 256 ^ t.length * (256 * (acc + 1)) := by
          apply Nat.mul_le_mul_left
          omega
      _ = 256 ^ (b :: t).length * (acc + 1) := by
          simp only [List.length_cons, pow_succ]
          ring

theorem digestFold_inj : ∀ (l1 l2 : List Nat), l1.length = l2.length →
    (∀ b ∈ l1, b < 256) → (∀ b ∈ l2, b < 256) →
    digestFold 0 l1 = digestFold 0 l2 → l1 = l2 := by
  intro l1
  induction l1 with
  | nil =>
    intro l2 hlen _ _ _
    cases l2 with
    | nil => rfl
    | cons b2 t2 => simp at hlen
  | cons b1 t1 ih =>
    intro l2 hlen hb1 hb2 heq
    cases l2 with
    | nil => simp at hlen
    | cons b2 t2 =>
      have hlen' : t1.length = t2.length := by simpa using hlen
      rw [digestFold_cons, digestFold_cons, digestFold_acc t1, digestFold_acc t2] at heq
      have hz1 : (0 : Nat) * 256 + b1 = b1 := by omega
      have hz2 : (0 : Nat) * 256 + b2 = b2 := by omega
      rw [hz1, hz2, hlen'] at heq
      have hK : 0 < 256 ^ t2.length := pow_pos (by norm_num) _
      have hd1 : digestFold 0 t1 < 256 ^ t2.length := by
        have h := digestFold_lt t1 (fun x hx => hb1 x (by simp [hx])) 0
        rw [hlen'] at h
        simpa using h
      have hd2 : digestFold 0 t2 < 256 ^ t2.length := by
        have h := digestFold_lt t2 (fun x hx => hb2 x (by simp [hx])) 0
        simpa using h
      have hmul : 256 ^ t2.length * b1 + digestFold 0 t1 =
          256 ^ t2.length * b2 + digestFold 0 t2 := by
        rw [Nat.mul_comm (256 ^ t2.length) b1, Nat.mul_comm (256 ^ t2.length) b2]
        exact heq
      have hb12 : b1 = b2 := by
        have e1 : (256 ^ t2.length * b1 + digestFold 0 t1) / 256 ^ t2.length = b1 := by
          rw [Nat.mul_add_div hK, Nat.div_eq_of_lt hd1, Nat.add_zero]
        have e2 : (256 ^ t2.length * b2 + digestFold 0 t2) / 256 ^ t2.length = b2 := by
          rw [Nat.mul_add_div hK, Nat.div_eq_of_lt hd2, Nat.add_zero]
        rw [← e1, ← e2, hmul]
      subst hb12
      have htail : digestFold 0 t1 = digestFold 0 t2 := by omega
      have := ih t2 hlen' (fun x hx => hb1 x (by simp [hx]))
        (fun x hx => hb2 x (by simp [hx])) htail
      rw [this]

theorem cDigest_lt (k : Nat) :
    digestFold 0 (sha256 (utf8Encode (cData k))) < 2 ^ 256 := by
  have h := digestFold_lt (sha256 (utf8Encode (cData k))) (sha256_lt _) 0
  rw [sha256_length] at h
  have h2 : (256 : Nat) ^ 32 = 2 ^ 256 := by norm_num
  omega

/-- More candidate block-data strings than 256-bit digests: some two
distinct transactions hash to the same block hash. -/
theorem sha_collision : ∃ m n : Nat, m ≠ n ∧ shaHex (cData m) = shaHex (cData n) := by
  obtain ⟨m, hm, n, hn, hne, heq⟩ :=
    Finset.exists_ne_map_eq_of_card_lt_of_maps_to
      (s := Finset.range (2 ^ 256 + 1)) (t := Finset.range (2 ^ 256))
      (by rw [Finset.card_range, Finset.card_range]; exact Nat.lt_succ_self _)
      (f := fun k => digestFold 0 (sha256 (utf8Encode (cData k))))
      (fun a _ => Finset.mem_range.2 (cDigest_lt a))
  refine ⟨m, n, hne, ?_⟩
  have hlen : (sha256 (utf8Encode (cData m))).length =
      (sha256 (utf8Encode (cData n))).length := by
    rw [sha256_length, sha256_length]
  have hlists : sha256 (utf8Encode (cData m)) = sha256 (utf8Encode (cData n)) :=
    digestFold_inj _ _ hlen (sha256_lt _) (sha256_lt _) heq
  unfold shaHex shaHexBytes
  rw [hlists]

theorem cTx_ne (m n : Nat) (h : m ≠ n) : cTx m ≠ cTx n := by
  intro hcontra
  apply h
  have hpid : padPid m = padPid n := congrArg Transaction.player_id hcontra
  unfold padPid at hpid
  injection hpid with hdata
  have := congrArg List.length hdata
  simpa using this

theorem cChain_valid (k : Nat) : (cChain k).is_chain_valid = true := by
  rw [is_chain_valid_cons _ _ _ rfl]
  have h1 : ((cBlock k).hash == (cBlock k).calculate_hash) = true := by
    rw [show (cBlock k).calculate_hash = (cBlock k).hash from rfl, beq_self_eq_true]
  have h2 : ((cBlock k).previous_hash == gDummy.hash) = true := rfl
  have h3 : strStartsWith (cBlock k).hash (zeroPrefix 0) = true := rfl
  show (blockOk 0 gDummy (cBlock k) && validFrom 0 (cBlock k) []) = true
  simp only [blockOk, h1, h2, h3, validFrom, Bool.and_true, Bool.true_and]

theorem cChain_tampered_valid (m n : Nat)
    (hhex : shaHex (cData m) = shaHex (cData n)) :
    Blockchain.is_chain_valid
      { cChain m with chain := [gDummy, { cBlock m with transactions := [cTx n] }] }
      = true := by
  rw [is_chain_valid_cons _ _ _ rfl]
  have h1 : (({ cBlock m with transactions := [cTx n] } : Block).hash ==
      ({ cBlock m with transactions := [cTx n] } : Block).calculate_hash) = true := by
    have e1 : ({ cBlock m with transactions := [cTx n] } : Block).hash =
        shaHex (cData m) := rfl
    have e2 : ({ cBlock m with transactions := [cTx n] } : Block).calculate_hash =
        shaHex (cData n) := rfl
    rw [e1, e2, hhex, beq_self_eq_true]
  have h2 : (({ cBlock m with transactions := [cTx n] } : Block).previous_hash ==
      gDummy.hash) = true := rfl
  have h3 : strStartsWith ({ cBlock m with transactions := [cTx n] } : Block).hash
      (zeroPrefix 0) = true := rfl
  show (blockOk 0 gDummy { cBlock m with transactions := [cTx n] } &&
    validFrom 0 { cBlock m with transactions := [cTx n] } []) = true
  simp only [blockOk, h1, h2, h3, validFrom, Bool.and_true, Bool.true_and]

/-- C5 counterexample: a valid chain together with a different transaction
list for its index-1 block — the single transaction replaced by a different
one — that leaves `is_chain_valid` true.  Its existence follows from the
pigeonhole principle, so the claimed universal tamper-evidence is false as
stated (for transaction/nonce rewrites it holds only up to SHA-256
collisions). -/
theorem C5_counterexample :
    ∃ (g b : Block) (t t' : Transaction) (bc bc' : Blockchain),
      bc.chain = [g, b] ∧ b.transactions = [t] ∧ t ≠ t' ∧
      bc' = { bc with chain := [g, { b with transactions := [t'] }] } ∧
      bc.is_chain_valid = true ∧ bc'.is_chain_valid = true := by
  obtain ⟨m, n, hne, hhex⟩ := sha_collision
  exact ⟨gDummy, cBlock m, cTx m, cTx n, cChain m, _, rfl, rfl, cTx_ne m n hne,
    rfl, cChain_valid m, cChain_tampered_valid m n hhex⟩

/-! ## C6 — permutation invariance of the commitment -/

/-- C6 (as claimed): the commitment is independent of the order in which the
positions are supplied, because `create_commitment` sorts them first. -/
theorem C6_commitment_perm_invariant (P P' : List (Nat × Nat)) (S : String)
    (h : P.Perm P') : create_commitment P S = create_commitment P' S := by
  have hsort : List.insertionSort pairLE P = List.insertionSort pairLE P' := by
    refine List.eq_of_perm_of_sorted ?_ (List.sorted_insertionSort pairLE P)
      (List.sorted_insertionSort pairLE P')
    exact (List.perm_insertionSort pairLE P).trans
      (h.trans (List.perm_insertionSort pairLE P').symm)
  unfold create_commitment
  rw [hsort]

/-- Witness for C6 at a concrete permutation. -/
theorem C6_commitment_perm_invariant_witness :
    ([((0 : Nat), (0 : Nat)), (1, 2), (3, 1)] : List (Nat × Nat)).Perm
        [(3, 1), (0, 0), (1, 2)] ∧
    create_commitment [((0 : Nat), (0 : Nat)), (1, 2), (3, 1)] "ab" =
      create_commitment [(3, 1), (0, 0), (1, 2)] "ab" :=
  ⟨by decide, C6_commitment_perm_invariant _ _ "ab" (by decide)⟩

/-! ## C8 — `verify_hit` ignores the board commitment -/

/-- C8 (as claimed): `verify_hit` returns true iff the revealed position is
exactly the shot and the proof's commitment matches the commitment recomputed
over that single position with the proof's own salt; the `board_commitment`
argument never influences the result. -/
theorem C8_verify_hit_spec (pr : HitProof) (shot : Nat × Nat)
    (bc1 bc2 : String) :
    pr.verify_hit shot bc1 = pr.verify_hit shot bc2 ∧
    (pr.verify_hit shot bc1 = true ↔
      pr.revealed_position = some shot ∧
      create_commitment [shot] pr.position_salt = pr.commitment) := by
  constructor
  · rfl
  · cases hrp : pr.revealed_position with
    | none => simp [HitProof.verify_hit, hrp]
    | some rp =>
      by_cases h : rp = shot
      · subst h
        simp [HitProof.verify_hit, hrp, beq_iff_eq]
      · simp [HitProof.verify_hit, hrp, h, Ne.symm h]

/-! ## C9 — the shot economy -/

/-- `fire_shot` with a zero balance: the error propagates and nothing moves. -/
theorem fire_shot_err (s : GameCoordinator) (pid : String) (pl : Player)
    (x y : Nat) (now : Int) (hl : playersLookup s.players pid = some pl)
    (hs : pl.shots_available = 0) :
    s.fire_shot pid x y now = (.error "No shots available", s) := by
  simp only [GameCoordinator.fire_shot, hl]
  simp only [Player.fire_shot, if_pos hs]

/-- `fire_shot` with a positive balance: one credit is spent, the shot is
logged, and the transaction lands in the mempool. -/
theorem fire_shot_ok (s : GameCoordinator) (pid : String) (pl : Player)
    (x y : Nat) (now : Int) (hl : playersLookup s.players pid = some pl)
    (hs : pl.shots_available ≠ 0) :
    s.fire_shot pid x y now = (.ok (),
      { s with
        players := playersUpdate s.players pid (fun _ =>
          { pl with shots_available := pl.shots_available - 1,
                    shots_fired := pl.shots_fired ++ [(x, y)] }),
        blockchain := s.blockchain.add_transaction
          (Transaction.new pid x y 0 now) }) := by
  simp only [GameCoordinator.fire_shot, hl]
  simp only [Player.fire_shot, if_neg hs]

/-- C9 (as claimed).  First conjunct: a registered player with
`shots_available = 0` cannot fire — the call errors and the whole state (the
mempool included) is untouched.  Second conjunct: after one successful
`mine_for_shots` that awarded 1 credit to a player who had none, exactly one
`fire_shot` succeeds and a second one fails. -/
theorem C9_shot_economy :
    (∀ (s : GameCoordinator) (pid : String) (x y : Nat) (now : Int) (pl : Player),
      playersLookup s.players pid = some pl → pl.shots_available = 0 →
      s.fire_shot pid x y now = (.error "No shots available", s)) ∧
    (∀ (s : GameCoordinator) (pid : String) (now now2 : Int) (fuel : Nat)
        (s1 : GameCoordinator) (x y : Nat) (pl : Player),
      playersLookup s.players pid = some pl → pl.shots_available = 0 →
      s.mine_for_shots pid now fuel = some (.ok (1, s1)) →
      (s1.fire_shot pid x y now2).1 = .ok () ∧
      ((s1.fire_shot pid x y now2).2.fire_shot pid x y now2).1 =
        .error "No shots available") := by
  constructor
  · intro s pid x y now pl hl h0
    exact fire_shot_err s pid pl x y now hl h0
  · intro s pid now now2 fuel s1 x y pl hl h0 hm
    unfold GameCoordinator.mine_for_shots at hm
    rw [hl] at hm
    simp only [Option.isNone_some, Bool.false_eq_true, if_false] at hm
    by_cases hd : s.is_player_defeated pid
    · rw [if_pos hd] at hm
      simp at hm
    · rw [if_neg hd] at hm
      cases hmp : s.blockchain.mine_pending_transactions pid now fuel with
      | none => rw [hmp] at hm; exact Option.noConfusion hm
      | some out =>
        obtain ⟨bc2, r⟩ := out
        rw [hmp] at hm
        simp only [Option.some.injEq, Except.ok.injEq, Prod.mk.injEq] at hm
        obtain ⟨hr, hs1⟩ := hm
        subst hs1
        have hl1 : playersLookup
            (playersUpdate s.players pid (fun p => p.add_shots r)) pid =
            some (pl.add_shots r) := by
          rw [playersLookup_update, hl]
          rfl
        have hshots : (pl.add_shots r).shots_available = 1 := by
          simp [Player.add_shots, h0, ← hr]
        have hfire := fire_shot_ok
          { s with blockchain := bc2,
                   players := playersUpdate s.players pid (fun p => p.add_shots r) }
          pid (pl.add_shots r) x y now2 (by exact hl1)
          (by rw [hshots]; exact one_ne_zero)
        rw [hfire]
        refine ⟨rfl, ?_⟩
        have hl2 : playersLookup (playersUpdate
            (playersUpdate s.players pid (fun p => p.add_shots r)) pid (fun _ =>
            { pl.add_shots r with
              shots_available := (pl.add_shots r).shots_available - 1,
              shots_fired := (pl.add_shots r).shots_fired ++ [(x, y)] })) pid =
            some { pl.add_shots r with
              shots_available := (pl.add_shots r).shots_available - 1,
              shots_fired := (pl.add_shots r).shots_fired ++ [(x, y)] } := by
          rw [playersLookup_update, hl1]
          rfl
        have hfire2 := fire_shot_err
          { blockchain := Blockchain.add_transaction bc2 (Transaction.new pid x y 0 now2),
            grid := s.grid,
            players := playersUpdate
              (playersUpdate s.players pid (fun p => p.add_shots r)) pid (fun _ =>
              { pl.add_shots r with
                shots_available := (pl.add_shots r).shots_available - 1,
                shots_fired := (pl.add_shots r).shots_fired ++ [(x, y)] }),
            round := s.round }
          pid _ x y now2 (by exact hl2) (by rw [hshots])
        rw [hfire2]

/-- Witness for C9: the concrete fresh player `p1` of `c9State` cannot fire;
after mining once (difficulty 0) it can fire exactly once. -/
theorem C9_shot_economy_witness :
    c9State.fire_shot "p1" 0 0 0 = (.error "No shots available", c9State) ∧
    (c9State'.fire_shot "p1" 0 0 0).1 = .ok () ∧
    ((c9State'.fire_shot "p1" 0 0 0).2.fire_shot "p1" 0 0 0).1 =
      .error "No shots available" := by
  refine ⟨C9_shot_economy.1 c9State "p1" 0 0 0 c9Player rfl rfl, ?_⟩
  exact C9_shot_economy.2 c9State "p1" 0 0 0 c9State' 0 0 c9Player rfl rfl rfl

/-! ## C10 — firing a shot never touches the chain or the UTXO set -/

/-- C10 (as claimed): whether it succeeds or fails, `fire_shot` leaves
`blockchain.chain` and `blockchain.shot_utxos` unchanged — the only ledger
mutation on its path is `add_transaction`, which touches the mempool alone,
and `consume_shot` is never invoked. -/
theorem C10_fire_shot_frame (s : GameCoordinator) (player_id : String)
    (x y : Nat) (now : Int) :
    (s.fire_shot player_id x y now).2.blockchain.chain = s.blockchain.chain ∧
    (s.fire_shot player_id x y now).2.blockchain.shot_utxos =
      s.blockchain.shot_utxos := by
  rcases hl : playersLookup s.players player_id with _ | player
  · simp [GameCoordinator.fire_shot, hl]
  · rcases hf : player.fire_shot x y with e | p' <;>
      simp [GameCoordinator.fire_shot, hl, hf, Blockchain.add_transaction]

end Fleetchain
